import Mathlib

/-!
# polygoat-pdf-playground: the encode/decode pipeline of `main.go`

A shallow embedding of `src/main.go` and theorems about it.

* Bytes are `Fin 256`; byte slices are `List Byte`.
* Go functions of type `(T, error)` return `Except GoError T`.  A call that
  does not return at all (a run-time panic of a library routine, or a loop
  that never ends) is `none` of an enclosing `Option`.
* The operating system, the `git` tool, the PDF libraries, `compress/zlib`
  and the AES block function are external to the repository.  They are the
  fields of `Env`: one outcome function per external call.  The world the
  program acts on (existing paths, pending random bytes, the external calls
  made so far) is `World`, threaded explicitly.
* `crypto/cipher`'s CFB stream is small enough to be embedded as it is
  written in the Go standard library (`cfb.XORKeyStream`).  The theorems on
  the cipher layer hold for every block function `Env.aes`, AES among them:
  CFB runs the block function forwards in both directions.
* `compress/zlib` is not embedded.  Where a theorem needs that its reader
  undoes its writer, that is a hypothesis of the theorem.
-/

namespace Polygoat

/-! ## Bytes and slices -/

/-- A Go `byte`. -/
abbrev Byte := Fin 256

/-- Bytewise exclusive or, `a ^ b` on `uint8`. -/
def Byte.xor (a b : Byte) : Byte := ⟨(a.val ^^^ b.val) % 256, Nat.mod_lt _ (by decide)⟩

/-- Go's builtin `copy(dst, src)`: the contents of `dst` afterwards.  It copies
`min(len(dst), len(src))` bytes and leaves the rest of `dst` alone. -/
def goCopy (dst src : List Byte) : List Byte :=
  src.take dst.length ++ dst.drop src.length

/-- Go's `copy(buf[off:], src)`: the contents of `buf` afterwards. -/
def goCopyAt (buf : List Byte) (off : Nat) (src : List Byte) : List Byte :=
  buf.take off ++ goCopy (buf.drop off) src

/-- Go's `make([]byte, n)`. -/
def makeBytes (n : Nat) : List Byte := List.replicate n 0

/-- The bytes of a Go string literal made of ASCII characters. -/
def bytesOfString (s : String) : List Byte := s.data.map (fun c => Fin.ofNat c.toNat)

/-! ## Errors -/

/-- A Go `error` value. -/
inductive GoError where
  /-- An error made by `errors.New(s)`, by `fmt.Errorf(s)` without `%w`, or
  returned by a library or the operating system. -/
  | msg (s : String)
  /-- The error of `fmt.Errorf(s + ": %w", err)`. -/
  | wrap (s : String) (err : GoError)
deriving DecidableEq

instance instDecidableEqExcept {ε α : Type} [DecidableEq ε] [DecidableEq α] :
    DecidableEq (Except ε α)
  | .ok a, .ok b =>
    if h : a = b then isTrue (by rw [h]) else isFalse (by intro h1; cases h1; exact h rfl)
  | .error a, .error b =>
    if h : a = b then isTrue (by rw [h]) else isFalse (by intro h1; cases h1; exact h rfl)
  | .ok _, .error _ => isFalse (by intro h; cases h)
  | .error _, .ok _ => isFalse (by intro h; cases h)

/-! ## External calls and the world -/

/-- The external calls `main.go` makes, with their arguments. -/
inductive Call where
  | randRead (n : Nat)
  | mkdirTemp
  | gitCloneBare (repo dir : String)
  | gitBundleCreate (repo bundleFile : String)
  | rename (oldpath newpath : String)
  | removeAll (path : String)
  | remove (path : String)
  | readFile (path : String)
  | pdfOutputFileAndClose (pdfFile : String) (attachment : List Byte)
  | osOpen (path : String)
  | pdfAttachments (pdfFile : String)
  | pdfExtractAttachmentsRaw (pdfFile : String) (names : List String)
  | createTemp
  | tempWrite (name : String) (data : List Byte)
  | tempClose (name : String)
  | gitBundleVerify (bundleFile : String)
  | gitClone (bundleFile outputDir : String)
deriving DecidableEq

/-- The state the program acts on. -/
structure World where
  /-- The paths that exist in the file system. -/
  files : List String
  /-- The bytes `crypto/rand.Reader` will deliver next. -/
  rand : List Byte
  /-- The external calls made so far, oldest first. -/
  trace : List Call
deriving DecidableEq

/-- Record an external call. -/
def World.log (w : World) (c : Call) : World :=
  { files := w.files, rand := w.rand, trace := w.trace ++ [c] }

/-- The world after the path `p` has come into being. -/
def World.addFile (w : World) (p : String) : World :=
  { files := p :: w.files.filter (fun q => q ≠ p), rand := w.rand, trace := w.trace }

/-- The world after `os.Remove(p)`: the path is gone. -/
def World.removeFile (w : World) (p : String) : World :=
  { files := w.files.filter (fun q => q ≠ p), rand := w.rand, trace := w.trace }

/-- Whether the path `q` is the directory `dir` or lies under it. -/
def isUnder (dir q : String) : Bool :=
  q == dir || (dir.data ++ ['/']).isPrefixOf q.data

/-- The world after `os.RemoveAll(dir)`: the directory and all it holds are gone. -/
def World.removeAll (w : World) (dir : String) : World :=
  { files := w.files.filter (fun q => !isUnder dir q), rand := w.rand, trace := w.trace }

/-- An `io.Reader`, represented by the outcome of reading it to the end with
`io.Copy`. -/
abbrev Reader := Except GoError (List Byte)

/-- An entry returned by pdfcpu's attachment functions. -/
structure Attachment where
  FileName : String
  Reader : Reader

/-- The outcomes of the external calls.  Each field gives, for the arguments of
one call, what that call returns. -/
structure Env where
  /-- The AES block function: key, 16-byte block, encrypted block. -/
  aes : List Byte → List Byte → List Byte
  /-- The outcome of `zlib.NewWriter(&buf)` followed by `Write(p)`; on success
  the contents of `buf` after `Close()`. -/
  zlibWrite : List Byte → Except GoError (List Byte)
  /-- The outcome of `zlib.NewReader(bytes.NewReader(data))`. -/
  zlibNewReader : List Byte → Except GoError Reader
  /-- The outcome of `os.MkdirTemp("", "temp-repo-*")`. -/
  osMkdirTemp : Except GoError String
  /-- The outcome of running `git clone --bare repo dir`. -/
  gitCloneBare : String → String → Except GoError Unit
  /-- The outcome of running `git -C repo bundle create bundleFile --all`. -/
  gitBundleCreate : String → String → Except GoError Unit
  /-- The outcome of `os.Rename(oldpath, newpath)`. -/
  osRename : String → String → Except GoError Unit
  /-- The outcome of `os.ReadFile(path)`. -/
  osReadFile : String → Except GoError (List Byte)
  /-- The outcome of gofpdf's `OutputFileAndClose(pdfFile)` for a document with
  the given attachment. -/
  pdfOutputFileAndClose : String → List Byte → Except GoError Unit
  /-- The outcome of `os.Open(path)`. -/
  osOpen : String → Except GoError Unit
  /-- The outcome of pdfcpu's `api.Attachments`. -/
  pdfAttachments : String → Except GoError (List Attachment)
  /-- The outcome of pdfcpu's `api.ExtractAttachmentsRaw`. -/
  pdfExtractAttachmentsRaw : String → List String → Except GoError (List Attachment)
  /-- The outcome of `os.CreateTemp("", "temp-bundle-*.bundle")`: the name of
  the file. -/
  osCreateTemp : Except GoError String
  /-- The outcome of `tempFile.Write(data)`. -/
  tempWrite : String → List Byte → Except GoError Unit
  /-- The outcome of `tempFile.Close()`. -/
  tempClose : String → Except GoError Unit
  /-- The outcome of running `git bundle verify bundleFile`. -/
  gitBundleVerify : String → Except GoError Unit
  /-- The outcome of running `git clone bundleFile outputDir`. -/
  gitClone : String → String → Except GoError Unit
  /-- The function `filepath.Join` on two elements. -/
  filepathJoin : String → String → String

/-! ## `crypto/aes`, `crypto/cipher`, `io` -/

/-- The constant `aes.BlockSize`. -/
def aesBlockSize : Nat := 16

/-- A `cipher.Block` made by `aes.NewCipher`: it holds the key. -/
structure Block where
  key : List Byte
deriving DecidableEq

/-- The function `aes.NewCipher(key)`: a key of 16, 24 or 32 bytes gives a
block, any other length is a `KeySizeError`. -/
def aesNewCipher (key : List Byte) : Except GoError Block :=
  if key.length = 16 ∨ key.length = 24 ∨ key.length = 32 then .ok { key := key }
  else .error (.msg "crypto/aes: invalid key size")

/-- The method `Block.Encrypt(dst, src)`: the contents of `dst` afterwards.  It panics
when either slice is shorter than a block. -/
def Block.Encrypt (aes : List Byte → List Byte → List Byte) (b : Block)
    (dst src : List Byte) : Option (List Byte) :=
  if src.length < aesBlockSize ∨ dst.length < aesBlockSize then none
  else some (goCopy dst ((aes b.key (src.take aesBlockSize)).take aesBlockSize))

/-- The function `subtle.XORBytes(dst, x, y)`: the number `n` of bytes written and the
contents of `dst` afterwards.  It panics when `dst` is shorter than `n`. -/
def XORBytes (dst x y : List Byte) : Option (Nat × List Byte) :=
  let n := min x.length y.length
  if n = 0 then some (0, dst)
  else if dst.length < n then none
  else some (n, List.zipWith Byte.xor x y ++ dst.drop n)

/-- The struct `cfb` of `crypto/cipher`. -/
structure cfb where
  b : Block
  next : List Byte
  out : List Byte
  outUsed : Nat
  decrypt : Bool
deriving DecidableEq

/-- The function `newCFB(block, iv, decrypt)` behind `cipher.NewCFBEncrypter` and
`cipher.NewCFBDecrypter`.  It panics when the IV is not one block long. -/
def newCFB (block : Block) (iv : List Byte) (decrypt : Bool) : Option cfb :=
  if iv.length ≠ aesBlockSize then none
  else some
    { b := block
      next := goCopy (makeBytes aesBlockSize) iv
      out := makeBytes aesBlockSize
      outUsed := aesBlockSize
      decrypt := decrypt }

/-- The `for len(src) > 0` loop of `cfb.XORKeyStream`: the final stream state and
the contents of `dst` afterwards.  Every round consumes at least one byte of `src`,
so `fuel` bounds the number of rounds; `none` is a panic or a loop that has not ended
within `fuel` rounds. -/
def cfb.loop (aes : List Byte → List Byte → List Byte) :
    Nat → cfb → List Byte → List Byte → Option (cfb × List Byte)
  | _, x, dst, [] => some (x, dst)
  | 0, _, _, _ :: _ => none
  | fuel + 1, x, dst, s :: src =>
    -- if x.outUsed == len(x.out) { x.b.Encrypt(x.out, x.next); x.outUsed = 0 }
    let refill : Option cfb :=
      if x.outUsed = x.out.length then
        match x.b.Encrypt aes x.out x.next with
        | none => none
        | some o => some { x with out := o, outUsed := 0 }
      else some x
    match refill with
    | none => none
    | some x1 =>
      -- if x.decrypt { copy(x.next[x.outUsed:], src) }
      let x2 : cfb :=
        if x1.decrypt then { x1 with next := goCopyAt x1.next x1.outUsed (s :: src) } else x1
      -- n := subtle.XORBytes(dst, src, x.out[x.outUsed:])
      match XORBytes dst (s :: src) (x2.out.drop x2.outUsed) with
      | none => none
      | some (n, dst1) =>
        -- if !x.decrypt { copy(x.next[x.outUsed:], dst) }
        let x3 : cfb :=
          if !x2.decrypt then { x2 with next := goCopyAt x2.next x2.outUsed dst1 } else x2
        -- dst = dst[n:]; src = src[n:]; x.outUsed += n
        match cfb.loop aes fuel { x3 with outUsed := x3.outUsed + n }
            (dst1.drop n) ((s :: src).drop n) with
        | none => none
        | some (xf, rest) => some (xf, dst1.take n ++ rest)

/-- The method `cfb.XORKeyStream(dst, src)`: the final stream state and the contents of
`dst` afterwards.  It panics when `dst` is shorter than `src`.  The two call sites pass
either disjoint buffers or the same buffer twice; in the latter case every byte of `src`
is read before the byte of `dst` at the same place is written, so passing the same list
twice describes the in-place run. -/
def cfb.XORKeyStream (aes : List Byte → List Byte → List Byte) (x : cfb)
    (dst src : List Byte) : Option (cfb × List Byte) :=
  if dst.length < src.length then none
  else cfb.loop aes src.length x dst src

/-- The call `io.ReadFull(rand.Reader, buf)`: the contents of `buf` afterwards.  The random
source delivers the bytes `w.rand`; when it runs dry before `buf` is full the call
fails with `io.EOF` or `io.ErrUnexpectedEOF`. -/
def ioReadFullRand (buf : List Byte) (w : World) : Except GoError (List Byte) × World :=
  let w1 := w.log (.randRead buf.length)
  if buf.length ≤ w.rand.length then
    (.ok (goCopy buf (w.rand.take buf.length)),
      { w1 with rand := w.rand.drop buf.length })
  else if w.rand = [] then (.error (.msg "EOF"), w1)
  else (.error (.msg "unexpected EOF"), { w1 with rand := [] })

/-! ## `main.go`: the cipher layer -/

/-- The variable `encryptionKey` (32 bytes for AES-256). -/
def encryptionKey : List Byte := bytesOfString "12345678901234567890123456789012"

/-- The function `encrypt(data)` of `main.go`: AES in CFB mode under `encryptionKey`,
with a fresh IV read from the random source and put in front of the ciphertext. -/
def encrypt (env : Env) (data : List Byte) (w : World) :
    Option (Except GoError (List Byte) × World) :=
  match aesNewCipher encryptionKey with
  | .error err => some (.error (.wrap "failed to create cipher" err), w)
  | .ok block =>
    let ciphertext := makeBytes (aesBlockSize + data.length)
    -- iv := ciphertext[:aes.BlockSize]
    match ioReadFullRand (ciphertext.take aesBlockSize) w with
    | (.error err, w1) => some (.error (.wrap "failed to generate IV" err), w1)
    | (.ok iv, w1) =>
      match newCFB block iv false with
      | none => none
      | some stream =>
        match stream.XORKeyStream env.aes (ciphertext.drop aesBlockSize) data with
        | none => none
        | some (_, body) => some (.ok (iv ++ body), w1)

/-- The function `decrypt(data)` of `main.go`. -/
def decrypt (env : Env) (data : List Byte) : Option (Except GoError (List Byte)) :=
  match aesNewCipher encryptionKey with
  | .error err => some (.error (.wrap "failed to create cipher" err))
  | .ok block =>
    if data.length < aesBlockSize then some (.error (.msg "ciphertext too short"))
    else
      let iv := data.take aesBlockSize
      let ciphertext := data.drop aesBlockSize
      match newCFB block iv true with
      | none => none
      | some stream =>
        match stream.XORKeyStream env.aes ciphertext ciphertext with
        | none => none
        | some (_, plain) => some (.ok plain)

/-- The ciphertext of `data` under `encryptionKey` and `iv`: the bytes a fresh CFB
encrypter writes over a zeroed buffer of the length of `data`. -/
def cipher (env : Env) (iv data : List Byte) : Option (List Byte) :=
  match aesNewCipher encryptionKey with
  | .error _ => none
  | .ok block =>
    match newCFB block iv false with
    | none => none
    | some stream =>
      match stream.XORKeyStream env.aes (makeBytes data.length) data with
      | none => none
      | some (_, body) => some body

/-- The plaintext of `ciphertext` under `encryptionKey` and `iv`: the bytes a fresh CFB
decrypter leaves in the buffer it is run over in place. -/
def decipher (env : Env) (iv ciphertext : List Byte) : Option (List Byte) :=
  match aesNewCipher encryptionKey with
  | .error _ => none
  | .ok block =>
    match newCFB block iv true with
    | none => none
    | some stream =>
      match stream.XORKeyStream env.aes ciphertext ciphertext with
      | none => none
      | some (_, plain) => some plain

/-- The slice `l` with `d` XOR-ed into its last byte. -/
def xorLastByte (d : Byte) : List Byte → List Byte
  | [] => []
  | [a] => [a.xor d]
  | a :: b :: t => a :: xorLastByte d (b :: t)

/-! ## `main.go`: the container adapter and the compression layer -/

/-- The function `createPDFWithAttachment(pdfFile, embeddedData)` of `main.go`.  The page
and the attachment record are built in memory; the one call that can fail is
`pdf.OutputFileAndClose(pdfFile)`. -/
def createPDFWithAttachment (env : Env) (pdfFile : String) (embeddedData : List Byte)
    (w : World) : Except GoError Unit × World :=
  let w1 := w.log (.pdfOutputFileAndClose pdfFile embeddedData)
  match env.pdfOutputFileAndClose pdfFile embeddedData with
  | .error err => (.error (.wrap "failed to save PDF" err), w1)
  | .ok () => (.ok (), w1.addFile pdfFile)

/-- The function `extractAttachmentFromPDF(pdfFile)` of `main.go`. -/
def extractAttachmentFromPDF (env : Env) (pdfFile : String) (w : World) :
    Except GoError (List Byte) × World :=
  let w1 := w.log (.osOpen pdfFile)
  match env.osOpen pdfFile with
  | .error err => (.error (.wrap "failed to open PDF file" err), w1)
  | .ok () =>
    let w2 := w1.log (.pdfAttachments pdfFile)
    match env.pdfAttachments pdfFile with
    | .error err => (.error (.wrap "failed to list attachments" err), w2)
    | .ok [] => (.error (.msg "no attachments found in PDF"), w2)
    | .ok (attachment :: _) =>
      let w3 := w2.log (.pdfExtractAttachmentsRaw pdfFile [attachment.FileName])
      match env.pdfExtractAttachmentsRaw pdfFile [attachment.FileName] with
      | .error err => (.error (.wrap "failed to extract attachment content" err), w3)
      | .ok [] =>
        (.error (.msg ("no content found for attachment: " ++ attachment.FileName)), w3)
      | .ok (first :: _) =>
        -- io.Copy(&buf, extractedAttachments[0].Reader)
        match first.Reader with
        | .error err => (.error (.wrap "failed to read extracted attachment content" err), w3)
        | .ok content => (.ok content, w3)

/-- The function `decompress(compressedData)` of `main.go`. -/
def decompress (env : Env) (compressedData : List Byte) : Except GoError (List Byte) :=
  match env.zlibNewReader compressedData with
  | .error err => .error (.wrap "failed to create zlib reader" err)
  | .ok reader =>
    -- io.Copy(&decompressedData, reader)
    match reader with
    | .error err => .error (.wrap "failed to read from zlib reader" err)
    | .ok decompressedData => .ok decompressedData

/-! ## `main.go`: the archive adapter -/

/-- The function `strings.HasPrefix(s, p)`. -/
def stringsHasPrefix (s p : String) : Bool := p.data.isPrefixOf s.data

/-- The function `isRemoteRepo(repo)` of `main.go`. -/
def isRemoteRepo (repo : String) : Bool :=
  stringsHasPrefix repo "http://" || stringsHasPrefix repo "https://" ||
    stringsHasPrefix repo "git@"

/-- The second half of `createGitBundle`, from `bundleFile := ...` on, run on the
repository path that the first half has settled on. -/
def createGitBundle.bundle (env : Env) (repoPath : String) (w : World) :
    Except GoError String × World :=
  let bundleFile := env.filepathJoin repoPath "repo.bundle"
  let w1 := w.log (.gitBundleCreate repoPath bundleFile)
  match env.gitBundleCreate repoPath bundleFile with
  | .error err => (.error (.wrap "failed to create Git bundle" err), w1)
  | .ok () =>
    let w2 := w1.addFile bundleFile
    let finalBundlePath := env.filepathJoin "." "repo.bundle"
    let w3 := w2.log (.rename bundleFile finalBundlePath)
    match env.osRename bundleFile finalBundlePath with
    | .error err => (.error (.wrap "failed to move Git bundle file" err), w3)
    | .ok () => (.ok finalBundlePath, (w3.removeFile bundleFile).addFile finalBundlePath)

/-- The function `createGitBundle(repoPath)` of `main.go`.  An external call that
fails is taken to leave the paths as they were. -/
def createGitBundle (env : Env) (repoPath : String) (w : World) :
    Except GoError String × World :=
  let isRemote := isRemoteRepo repoPath
  if isRemote then
    let w1 := w.log .mkdirTemp
    match env.osMkdirTemp with
    | .error err => (.error (.wrap "failed to create temporary directory" err), w1)
    | .ok tempDir =>
      let w2 := w1.addFile tempDir
      -- defer os.RemoveAll(tempDir)
      let body : Except GoError String × World :=
        let w3 := w2.log (.gitCloneBare repoPath tempDir)
        match env.gitCloneBare repoPath tempDir with
        | .error err => (.error (.wrap "failed to clone remote repository" err), w3)
        | .ok () => createGitBundle.bundle env tempDir w3
      (body.1, (body.2.log (.removeAll tempDir)).removeAll tempDir)
  else createGitBundle.bundle env repoPath w

/-! ## `main.go`: the two pipelines -/

/-- The deferred `os.Remove(path)` as it acts on the world a function body ends in. -/
def deferRemove (path : String) (w : World) : World :=
  (w.log (.remove path)).removeFile path

/-- The function `embedRepositoryIntoPDF(repoPath, outputFile)` of `main.go`. -/
def embedRepositoryIntoPDF (env : Env) (repoPath outputFile : String) (w : World) :
    Option (Except GoError Unit × World) :=
  match createGitBundle env repoPath w with
  | (.error err, w1) => some (.error (.wrap "failed to create Git bundle" err), w1)
  | (.ok bundleFile, w1) =>
    -- defer os.Remove(bundleFile)
    let body : Option (Except GoError Unit × World) :=
      let w2 := w1.log (.readFile bundleFile)
      match env.osReadFile bundleFile with
      | .error err => some (.error (.wrap "failed to read Git bundle" err), w2)
      | .ok bundleData =>
        match encrypt env bundleData w2 with
        | none => none
        | some (.error err, w3) => some (.error (.wrap "failed to encrypt data" err), w3)
        | some (.ok encryptedData, w3) =>
          match env.zlibWrite encryptedData with
          | .error err => some (.error (.wrap "failed to compress encrypted data" err), w3)
          | .ok compressedData =>
            match createPDFWithAttachment env outputFile compressedData w3 with
            | (.error err, w4) =>
              some (.error (.wrap "failed to create PDF with embedded data" err), w4)
            | (.ok (), w4) => some (.ok (), w4)
    match body with
    | none => none
    | some (r, w5) => some (r, deferRemove bundleFile w5)

/-- The steps of `extractRepositoryFromPDF` that follow `os.CreateTemp`: write the
bundle to the temporary file, close it, verify it and clone from it. -/
def extractRepositoryFromPDF.restore (env : Env) (tempFile : String)
    (decryptedData : List Byte) (outputDir : String) (w : World) :
    Except GoError Unit × World :=
  let w1 := w.log (.tempWrite tempFile decryptedData)
  match env.tempWrite tempFile decryptedData with
  | .error err => (.error (.wrap "failed to write Git bundle to temp file" err), w1)
  | .ok () =>
    let w2 := w1.log (.tempClose tempFile)
    match env.tempClose tempFile with
    | .error err => (.error (.wrap "failed to close temp file" err), w2)
    | .ok () =>
      let w3 := w2.log (.gitBundleVerify tempFile)
      match env.gitBundleVerify tempFile with
      | .error err => (.error (.wrap "invalid Git bundle" err), w3)
      | .ok () =>
        let w4 := w3.log (.gitClone tempFile outputDir)
        match env.gitClone tempFile outputDir with
        | .error err => (.error (.wrap "failed to clone repository" err), w4)
        | .ok () => (.ok (), w4.addFile outputDir)

/-- The function `extractRepositoryFromPDF(inputFile, outputDir)` of `main.go`. -/
def extractRepositoryFromPDF (env : Env) (inputFile outputDir : String) (w : World) :
    Option (Except GoError Unit × World) :=
  match extractAttachmentFromPDF env inputFile w with
  | (.error err, w1) => some (.error (.wrap "failed to extract attachment from PDF" err), w1)
  | (.ok embeddedData, w1) =>
    match decompress env embeddedData with
    | .error err => some (.error (.wrap "failed to decompress data" err), w1)
    | .ok decompressedData =>
      match decrypt env decompressedData with
      | none => none
      | some (.error err) => some (.error (.wrap "failed to decrypt data" err), w1)
      | some (.ok decryptedData) =>
        let w2 := w1.log .createTemp
        match env.osCreateTemp with
        | .error err => some (.error (.wrap "failed to create temporary file" err), w2)
        | .ok tempFile =>
          let w3 := w2.addFile tempFile
          -- defer os.Remove(tempFile.Name())
          let body := extractRepositoryFromPDF.restore env tempFile decryptedData outputDir w3
          some (body.1, deferRemove tempFile body.2)

/-! ## Definitions used in the statements and proofs -/

/-- The key stream block a refill puts into `x.out`. -/
def keyBlock (aes : List Byte → List Byte → List Byte) (x : cfb) : List Byte :=
  goCopy x.out ((aes x.b.key (x.next.take aesBlockSize)).take aesBlockSize)

/-- The state of a CFB stream between two blocks. -/
structure cfb.AtBlock (x : cfb) : Prop where
  used : x.outUsed = 16
  out : x.out.length = 16
  next : x.next.length = 16

/-- The spec's SSH-style form `user@host:`: any user name, then `@`, a host and a colon. -/
def SshStyleUserAtHost (s : String) : Prop :=
  ∃ user host rest : String,
    user ≠ "" ∧ host ≠ "" ∧ s = user ++ "@" ++ host ++ ":" ++ rest

/-- A small environment for worked examples: a toy block function, a framing codec in the
place of zlib, and external calls that all succeed. -/
def demoEnv : Env where
  aes := fun key block => List.zipWith Byte.xor key (block.reverse.map (fun b => b + 7))
  zlibWrite := fun p => .ok (120 :: 156 :: p)
  zlibNewReader := fun c =>
    match c with
    | 120 :: 156 :: p => .ok (.ok p)
    | _ => .error (.msg "zlib: invalid header")
  osMkdirTemp := .ok "/tmp/temp-repo-1"
  gitCloneBare := fun _ _ => .ok ()
  gitBundleCreate := fun _ _ => .ok ()
  osRename := fun _ _ => .ok ()
  osReadFile := fun _ => .ok [80, 65, 67, 75]
  pdfOutputFileAndClose := fun _ _ => .ok ()
  osOpen := fun _ => .ok ()
  pdfAttachments := fun _ => .ok []
  pdfExtractAttachmentsRaw := fun _ _ => .ok []
  osCreateTemp := .ok "/tmp/temp-bundle-1.bundle"
  tempWrite := fun _ _ => .ok ()
  tempClose := fun _ => .ok ()
  gitBundleVerify := fun _ => .ok ()
  gitClone := fun _ _ => .ok ()
  filepathJoin := fun a b => if a = "." then b else a ++ "/" ++ b

/-- Sixteen bytes for the random source of the worked examples. -/
def demoIV : List Byte := [3, 1, 4, 1, 5, 9, 2, 6, 5, 3, 5, 8, 9, 7, 9, 3]

/-- A world with an empty file system and one IV worth of random bytes. -/
def demoWorld : World := { files := [], rand := demoIV, trace := [] }

/-- The environment of `demoEnv` with a working directory on another file system than the
repository: `os.Rename` fails. -/
def crossDeviceEnv : Env :=
  { demoEnv with osRename := fun _ _ => .error (.msg "invalid cross-device link") }

/-- The attachment that `embedRepositoryIntoPDF` writes in `demoEnv` for the archive
`PACK` and the random bytes `demoIV`. -/
def demoAttachment : List Byte :=
  [120, 156, 3, 1, 4, 1, 5, 9, 2, 6, 5, 3, 5, 8, 9, 7, 9, 3, 107, 99, 126, 111]

/-- The environment of `demoEnv` in which every container holds `demoAttachment` under the
name `report.csv`. -/
def archivedEnv : Env :=
  { demoEnv with
    pdfAttachments := fun _ => .ok [{ FileName := "report.csv", Reader := .ok demoAttachment }]
    pdfExtractAttachmentsRaw := fun _ _ =>
      .ok [{ FileName := "report.csv", Reader := .ok demoAttachment }] }

/-! ## Bytes, slices and the CFB loop -/

theorem Byte.xor_xor_cancel (a k : Byte) : (a.xor k).xor k = a := by
  apply Fin.ext
  have h1 : a.val ^^^ k.val < 256 := Nat.xor_lt_two_pow (n := 8) a.isLt k.isLt
  have h2 : a.val < 256 := a.isLt
  show ((a.val ^^^ k.val) % 256 ^^^ k.val) % 256 = a.val
  rw [Nat.mod_eq_of_lt h1, Nat.xor_assoc, Nat.xor_self, Nat.xor_zero, Nat.mod_eq_of_lt h2]

theorem goCopy_length (dst src : List Byte) : (goCopy dst src).length = dst.length := by
  simp [goCopy]; omega

theorem goCopy_of_le (dst src : List Byte) (h : dst.length ≤ src.length) :
    goCopy dst src = src.take dst.length := by
  simp [goCopy, List.drop_eq_nil_of_le h]

theorem keyBlock_length (aes) (x : cfb) : (keyBlock aes x).length = x.out.length := by
  simp [keyBlock, goCopy_length]

theorem Block_Encrypt_eq (aes) (x : cfb) (ho : x.out.length = 16) (hn : x.next.length = 16) :
    x.b.Encrypt aes x.out x.next = some (keyBlock aes x) := by
  simp [Block.Encrypt, keyBlock, aesBlockSize, ho, hn]

theorem XORBytes_eq (dst : List Byte) (s : Byte) (t K : List Byte) (hK : K.length = 16)
    (hd : min (t.length + 1) 16 ≤ dst.length) :
    XORBytes dst (s :: t) K =
      some (min (t.length + 1) 16,
        List.zipWith Byte.xor (s :: t) K ++ dst.drop (min (t.length + 1) 16)) := by
  have h0 : min (t.length + 1) 16 ≠ 0 := by omega
  have h1 : ¬ dst.length < min (t.length + 1) 16 := by omega
  simp only [XORBytes, List.length_cons, hK, h0, h1, if_false]

theorem loop_dec_cons (aes) (fuel : Nat) (x : cfb) (s : Byte) (t : List Byte)
    (hd : x.decrypt = true) (hu : x.outUsed = 16) (ho : x.out.length = 16)
    (hn : x.next.length = 16) :
    cfb.loop aes (fuel + 1) x (s :: t) (s :: t) =
      match cfb.loop aes fuel
          { b := x.b, next := goCopy x.next (s :: t), out := keyBlock aes x,
            outUsed := min (t.length + 1) 16, decrypt := true }
          ((s :: t).drop (min (t.length + 1) 16)) ((s :: t).drop (min (t.length + 1) 16)) with
      | none => none
      | some (xf, rest) => some (xf, List.zipWith Byte.xor (s :: t) (keyBlock aes x) ++ rest) := by
  have hk : (keyBlock aes x).length = 16 := by rw [keyBlock_length]; exact ho
  have hz : (List.zipWith Byte.xor (s :: t) (keyBlock aes x)).length = min (t.length + 1) 16 := by
    simp [hk]
  rw [cfb.loop]
  simp only [hu, ho, if_true, Block_Encrypt_eq aes x ho hn, hd, goCopyAt, List.take_zero,
    List.drop_zero, List.nil_append, Bool.not_true, Bool.false_eq_true, if_false, Nat.zero_add]
  rw [XORBytes_eq _ s t _ hk (by simp)]
  simp only [List.drop_append_eq_append_drop, List.take_append_eq_append_take, hz, Nat.sub_self,
    List.drop_zero, List.take_zero, List.append_nil]
  rw [List.drop_of_length_le (le_of_eq hz), List.take_of_length_le (le_of_eq hz)]
  rfl

theorem loop_enc_cons (aes) (fuel : Nat) (x : cfb) (dst : List Byte) (s : Byte) (t : List Byte)
    (hd : x.decrypt = false) (hu : x.outUsed = 16) (ho : x.out.length = 16)
    (hn : x.next.length = 16) (hl : min (t.length + 1) 16 ≤ dst.length) :
    cfb.loop aes (fuel + 1) x dst (s :: t) =
      match cfb.loop aes fuel
          { b := x.b,
            next := goCopy x.next (List.zipWith Byte.xor (s :: t) (keyBlock aes x) ++
              dst.drop (min (t.length + 1) 16)),
            out := keyBlock aes x,
            outUsed := min (t.length + 1) 16, decrypt := false }
          (dst.drop (min (t.length + 1) 16)) ((s :: t).drop (min (t.length + 1) 16)) with
      | none => none
      | some (xf, rest) => some (xf, List.zipWith Byte.xor (s :: t) (keyBlock aes x) ++ rest) := by
  have hk : (keyBlock aes x).length = 16 := by rw [keyBlock_length]; exact ho
  have hz : (List.zipWith Byte.xor (s :: t) (keyBlock aes x)).length = min (t.length + 1) 16 := by
    simp [hk]
  rw [cfb.loop]
  simp only [hu, ho, if_true, Block_Encrypt_eq aes x ho hn, hd, goCopyAt, List.take_zero,
    List.drop_zero, List.nil_append, Bool.not_false, Bool.false_eq_true, if_false, Nat.zero_add]
  rw [XORBytes_eq _ s t _ hk hl]
  simp only [List.drop_append_eq_append_drop, List.take_append_eq_append_take, hz, Nat.sub_self,
    List.drop_zero, List.take_zero, List.append_nil]
  rw [List.drop_of_length_le (le_of_eq hz), List.take_of_length_le (le_of_eq hz)]
  rfl

theorem loop_nil (aes) (fuel : Nat) (x : cfb) (dst : List Byte) :
    cfb.loop aes fuel x dst [] = some (x, dst) := by
  cases fuel <;> simp [cfb.loop]

theorem zipWith_xor_length (a K : List Byte) (hK : K.length = 16) :
    (List.zipWith Byte.xor a K).length = min a.length 16 := by
  simp [hK]

/-- One round of the loop in decrypt direction, in place. -/
theorem loop_dec_round (aes) (fuel : Nat) (x : cfb) (c : List Byte) (hc : c ≠ [])
    (hd : x.decrypt = true) (hx : x.AtBlock) :
    cfb.loop aes (fuel + 1) x c c =
      match cfb.loop aes fuel
          { b := x.b, next := goCopy x.next c, out := keyBlock aes x,
            outUsed := min c.length 16, decrypt := true }
          (c.drop (min c.length 16)) (c.drop (min c.length 16)) with
      | none => none
      | some (xf, rest) => some (xf, List.zipWith Byte.xor c (keyBlock aes x) ++ rest) := by
  cases c with
  | nil => exact absurd rfl hc
  | cons s t => exact loop_dec_cons aes fuel x s t hd hx.used hx.out hx.next

/-- One round of the loop in encrypt direction. -/
theorem loop_enc_round (aes) (fuel : Nat) (x : cfb) (dst src : List Byte) (hs : src ≠ [])
    (hd : x.decrypt = false) (hx : x.AtBlock) (hl : min src.length 16 ≤ dst.length) :
    cfb.loop aes (fuel + 1) x dst src =
      match cfb.loop aes fuel
          { b := x.b,
            next := goCopy x.next (List.zipWith Byte.xor src (keyBlock aes x) ++
              dst.drop (min src.length 16)),
            out := keyBlock aes x,
            outUsed := min src.length 16, decrypt := false }
          (dst.drop (min src.length 16)) (src.drop (min src.length 16)) with
      | none => none
      | some (xf, rest) => some (xf, List.zipWith Byte.xor src (keyBlock aes x) ++ rest) := by
  cases src with
  | nil => exact absurd rfl hs
  | cons s t => exact loop_enc_cons aes fuel x dst s t hd hx.used hx.out hx.next hl

/-- In decrypt direction the loop ends and gives as many bytes as it was given. -/
theorem loop_dec_total (aes) : ∀ (fuel : Nat) (x : cfb) (c : List Byte),
    x.decrypt = true → x.AtBlock → c.length ≤ fuel →
    ∃ xf p, cfb.loop aes fuel x c c = some (xf, p) ∧ p.length = c.length := by
  intro fuel
  induction fuel with
  | zero =>
    intro x c _ _ hc
    have : c = [] := List.length_eq_zero.mp (Nat.le_zero.mp hc)
    subst this
    exact ⟨x, [], loop_nil aes 0 x [], rfl⟩
  | succ f ih =>
    intro x c hd hx hc
    by_cases hne : c = []
    · subst hne
      exact ⟨x, [], loop_nil aes _ x [], rfl⟩
    · have hpos : 0 < c.length := List.length_pos.mpr hne
      have hK : (keyBlock aes x).length = 16 := by rw [keyBlock_length]; exact hx.out
      rw [loop_dec_round aes f x c hne hd hx]
      by_cases h16 : 16 ≤ c.length
      · have hm : min c.length 16 = 16 := by omega
        rw [hm]
        obtain ⟨xf, p, hp, hlen⟩ := ih
          { b := x.b, next := goCopy x.next c, out := keyBlock aes x, outUsed := 16,
            decrypt := true } (c.drop 16) rfl
          ⟨rfl, hK, by simp [goCopy_length, hx.next]⟩ (by simp; omega)
        rw [hp]
        refine ⟨xf, _, rfl, ?_⟩
        simp [hK, hlen]; omega
      · have hm : min c.length 16 = c.length := by omega
        rw [hm, List.drop_length, loop_nil]
        refine ⟨_, _, rfl, ?_⟩
        simp [hK]; omega

theorem zipWith_xor_cancel : ∀ (a K : List Byte),
    List.zipWith Byte.xor (List.zipWith Byte.xor a K) K = a.take K.length
  | [], _ => by simp
  | _ :: _, [] => by simp
  | a :: as, k :: ks => by
    simp [Byte.xor_xor_cancel, zipWith_xor_cancel as ks]

theorem zipWith_append_left (f : Byte → Byte → Byte) (Z r K : List Byte)
    (h : K.length ≤ Z.length ∨ r = []) :
    List.zipWith f (Z ++ r) K = List.zipWith f Z K := by
  rcases h with h | h
  · induction Z generalizing K with
    | nil =>
      have : K = [] := List.length_eq_zero.mp (Nat.le_zero.mp h)
      subst this; simp
    | cons z zs ih =>
      cases K with
      | nil => simp
      | cons k ks =>
        simp only [List.cons_append, List.zipWith_cons_cons]
        rw [ih ks (by simpa using h)]
  · subst h; simp

/-- Encrypting and then decrypting from the same stream state gives the input back. -/
theorem loop_enc_dec (aes) : ∀ (fuel : Nat) (x : cfb) (dst src : List Byte),
    x.decrypt = false → x.AtBlock → dst.length = src.length → src.length ≤ fuel →
    ∃ xf c, cfb.loop aes fuel x dst src = some (xf, c) ∧ c.length = src.length ∧
      ∀ fuel2, c.length ≤ fuel2 →
        ∃ yf, cfb.loop aes fuel2
          { b := x.b, next := x.next, out := x.out, outUsed := 16, decrypt := true } c c =
            some (yf, src) := by
  intro fuel
  induction fuel with
  | zero =>
    intro x dst src _ _ hl hs
    have h1 : src = [] := List.length_eq_zero.mp (Nat.le_zero.mp hs)
    subst h1
    have h2 : dst = [] := List.length_eq_zero.mp hl
    subst h2
    exact ⟨x, [], loop_nil aes 0 x [], rfl, fun fuel2 _ => ⟨_, loop_nil aes fuel2 _ []⟩⟩
  | succ f ih =>
    intro x dst src hd hx hl hs
    by_cases hne : src = []
    · subst hne
      have h2 : dst = [] := List.length_eq_zero.mp hl
      subst h2
      exact ⟨x, [], loop_nil aes _ x [], rfl, fun fuel2 _ => ⟨_, loop_nil aes fuel2 _ []⟩⟩
    · have hpos : 0 < src.length := List.length_pos.mpr hne
      have hK : (keyBlock aes x).length = 16 := by rw [keyBlock_length]; exact hx.out
      have hy : cfb.AtBlock
          { b := x.b, next := x.next, out := x.out, outUsed := 16, decrypt := true } :=
        ⟨rfl, hx.out, hx.next⟩
      have hKy : keyBlock aes
          { b := x.b, next := x.next, out := x.out, outUsed := 16, decrypt := true } =
          keyBlock aes x := rfl
      rw [loop_enc_round aes f x dst src hne hd hx (by omega)]
      by_cases h16 : 16 ≤ src.length
      · have hm : min src.length 16 = 16 := by omega
        have hZ : (List.zipWith Byte.xor src (keyBlock aes x)).length = 16 := by
          simp [hK]; omega
        have hnext : goCopy x.next (List.zipWith Byte.xor src (keyBlock aes x) ++ dst.drop 16) =
            List.zipWith Byte.xor src (keyBlock aes x) := by
          rw [goCopy_of_le _ _ (by simp [hx.next, hZ]), hx.next, List.take_append_of_le_length
            (by omega), List.take_of_length_le (by omega)]
        rw [hm, hnext]
        obtain ⟨xf, rest, hrest, hlen, hdec⟩ := ih
          { b := x.b, next := List.zipWith Byte.xor src (keyBlock aes x), out := keyBlock aes x,
            outUsed := 16, decrypt := false } (dst.drop 16) (src.drop 16) rfl
          ⟨rfl, hK, hZ⟩ (by simp [hl]) (by simp; omega)
        rw [hrest]
        refine ⟨xf, _, rfl, by simp [hZ, hlen]; omega, ?_⟩
        intro fuel2 hf2
        have hclen : (List.zipWith Byte.xor src (keyBlock aes x) ++ rest).length = src.length := by
          simp [hZ, hlen]; omega
        obtain ⟨g, rfl⟩ : ∃ g, fuel2 = g + 1 := ⟨fuel2 - 1, by omega⟩
        have hcne : List.zipWith Byte.xor src (keyBlock aes x) ++ rest ≠ [] := by
          intro h; rw [h] at hclen; simp at hclen; omega
        rw [loop_dec_round aes g _ _ hcne rfl hy, hKy, hclen, hm]
        have hcnext : goCopy x.next (List.zipWith Byte.xor src (keyBlock aes x) ++ rest) =
            List.zipWith Byte.xor src (keyBlock aes x) := by
          rw [goCopy_of_le _ _ (by simp [hx.next, hZ]), hx.next, List.take_append_of_le_length
            (by omega), List.take_of_length_le (by omega)]
        have hcdrop : (List.zipWith Byte.xor src (keyBlock aes x) ++ rest).drop 16 = rest := by
          rw [List.drop_append_of_le_length (by omega), List.drop_of_length_le (by omega)]
          simp
        simp only [hcnext, hcdrop]
        obtain ⟨yf, hy2⟩ := hdec g (by rw [hlen, List.length_drop]; rw [hclen] at hf2; omega)
        simp only at hy2
        rw [hy2]
        refine ⟨yf, ?_⟩
        dsimp only
        rw [zipWith_append_left _ _ _ _ (Or.inl (by omega)), zipWith_xor_cancel, hK,
          List.take_append_drop]
      · have hm : min src.length 16 = src.length := by omega
        have hZ : (List.zipWith Byte.xor src (keyBlock aes x)).length = src.length := by
          simp [hK]; omega
        rw [hm, List.drop_length, loop_nil]
        have hdd : dst.drop src.length = [] := List.drop_of_length_le (by omega)
        refine ⟨_, _, rfl, by simp [hdd, hZ], ?_⟩
        intro fuel2 hf2
        simp only [hdd, List.append_nil] at hf2 ⊢
        obtain ⟨g, rfl⟩ : ∃ g, fuel2 = g + 1 := ⟨fuel2 - 1, by omega⟩
        have hcne : List.zipWith Byte.xor src (keyBlock aes x) ≠ [] := by
          intro h; rw [h] at hZ; simp at hZ; omega
        have hdrop : (List.zipWith Byte.xor src (keyBlock aes x)).drop src.length = [] :=
          List.drop_of_length_le (by omega)
        rw [loop_dec_round aes g _ _ hcne rfl hy, hKy, hZ, hm, hdrop, loop_nil]
        dsimp only
        rw [zipWith_xor_cancel, hK, List.take_of_length_le (by omega), List.append_nil]
        exact ⟨_, rfl⟩

theorem xorLastByte_length (d : Byte) : ∀ l : List Byte, (xorLastByte d l).length = l.length
  | [] => rfl
  | [_] => rfl
  | _ :: b :: t => by simp [xorLastByte, xorLastByte_length d (b :: t)]

theorem xorLastByte_append (d : Byte) : ∀ (l r : List Byte), r ≠ [] →
    xorLastByte d (l ++ r) = l ++ xorLastByte d r
  | [], _, _ => rfl
  | [a], r, hr => by
    cases r with
    | nil => exact absurd rfl hr
    | cons b t => simp [xorLastByte]
  | a :: b :: t, r, hr => by
    have := xorLastByte_append d (b :: t) r hr
    simp only [List.cons_append] at this ⊢
    simp [xorLastByte, this]

theorem Byte.xor_right_comm (a d k : Byte) : (a.xor d).xor k = (a.xor k).xor d := by
  apply Fin.ext
  have h1 : a.val ^^^ k.val < 256 := Nat.xor_lt_two_pow (n := 8) a.isLt k.isLt
  have h2 : a.val ^^^ d.val < 256 := Nat.xor_lt_two_pow (n := 8) a.isLt d.isLt
  show ((a.val ^^^ d.val) % 256 ^^^ k.val) % 256 = ((a.val ^^^ k.val) % 256 ^^^ d.val) % 256
  rw [Nat.mod_eq_of_lt h1, Nat.mod_eq_of_lt h2, Nat.xor_assoc, Nat.xor_comm d.val k.val,
    ← Nat.xor_assoc]

theorem zipWith_xorLastByte (d : Byte) : ∀ (l K : List Byte), l.length ≤ K.length →
    List.zipWith Byte.xor (xorLastByte d l) K = xorLastByte d (List.zipWith Byte.xor l K)
  | [], _, _ => by simp [xorLastByte]
  | [a], K, h => by
    cases K with
    | nil => simp at h
    | cons k ks => simp [xorLastByte, Byte.xor_right_comm]
  | a :: b :: t, K, h => by
    cases K with
    | nil => simp at h
    | cons k ks =>
      cases ks with
      | nil => simp at h
      | cons k2 ks2 =>
        have ih := zipWith_xorLastByte d (b :: t) (k2 :: ks2) (by simpa using h)
        simp only [xorLastByte, List.zipWith_cons_cons] at ih ⊢
        rw [ih]

theorem xorLastByte_take_drop (d : Byte) (l : List Byte) (k : Nat) (h : k < l.length) :
    xorLastByte d l = l.take k ++ xorLastByte d (l.drop k) := by
  have hne : l.drop k ≠ [] := by
    intro h0
    have := congrArg List.length h0
    simp at this; omega
  conv_lhs => rw [← List.take_append_drop k l]
  exact xorLastByte_append d _ _ hne

/-- Tampering with the last byte given to the decrypt loop changes the last byte it
gives, by the same amount, and nothing else. -/
theorem loop_dec_xorLast (aes) (d : Byte) : ∀ (fuel : Nat) (x : cfb) (c : List Byte),
    x.decrypt = true → x.AtBlock → c.length ≤ fuel →
    ∃ xf xg p, cfb.loop aes fuel x c c = some (xf, p) ∧ p.length = c.length ∧
      cfb.loop aes fuel x (xorLastByte d c) (xorLastByte d c) = some (xg, xorLastByte d p) := by
  intro fuel
  induction fuel with
  | zero =>
    intro x c _ _ hc
    have : c = [] := List.length_eq_zero.mp (Nat.le_zero.mp hc)
    subst this
    exact ⟨x, x, [], loop_nil aes 0 x [], rfl, loop_nil aes 0 x []⟩
  | succ f ih =>
    intro x c hd hx hc
    by_cases hne : c = []
    · subst hne
      exact ⟨x, x, [], loop_nil aes _ x [], rfl, loop_nil aes _ x []⟩
    · have hpos : 0 < c.length := List.length_pos.mpr hne
      have hK : (keyBlock aes x).length = 16 := by rw [keyBlock_length]; exact hx.out
      have hne2 : xorLastByte d c ≠ [] := by
        intro h0
        have := congrArg List.length h0
        rw [xorLastByte_length] at this
        simp only [List.length_nil] at this; omega
      rw [loop_dec_round aes f x c hne hd hx, loop_dec_round aes f x _ hne2 hd hx,
        xorLastByte_length]
      by_cases h16 : 16 < c.length
      · have hm : min c.length 16 = 16 := by omega
        have hsplit := xorLastByte_take_drop d c 16 h16
        have hnext : goCopy x.next (xorLastByte d c) = goCopy x.next c := by
          rw [goCopy_of_le _ _ (by rw [xorLastByte_length, hx.next]; omega),
            goCopy_of_le _ _ (by rw [hx.next]; omega), hx.next, hsplit,
            List.take_append_of_le_length (by simp; omega), List.take_take, Nat.min_self]
        have hdrop : (xorLastByte d c).drop 16 = xorLastByte d (c.drop 16) := by
          rw [hsplit, List.drop_append_of_le_length (by simp; omega),
            List.drop_of_length_le (by simp), List.nil_append]
        have hzip : List.zipWith Byte.xor (xorLastByte d c) (keyBlock aes x) =
            List.zipWith Byte.xor c (keyBlock aes x) := by
          rw [hsplit]
          conv_rhs => rw [← List.take_append_drop 16 c]
          rw [zipWith_append_left _ _ _ _ (Or.inl (by simp [hK]; omega)),
            zipWith_append_left _ _ _ _ (Or.inl (by simp [hK]; omega))]
        rw [hm, hnext, hdrop, hzip]
        obtain ⟨xf, xg, p, hp, hlen, hq⟩ := ih
          { b := x.b, next := goCopy x.next c, out := keyBlock aes x, outUsed := 16,
            decrypt := true } (c.drop 16) rfl
          ⟨rfl, hK, by simp [goCopy_length, hx.next]⟩ (by simp; omega)
        rw [hp, hq]
        dsimp only
        have hpne : p ≠ [] := by
          intro h0
          rw [h0] at hlen
          simp at hlen; omega
        refine ⟨xf, xg, _, rfl, by simp [hK, hlen]; omega, ?_⟩
        rw [xorLastByte_append d _ _ hpne]
      · have hm : min c.length 16 = c.length := by omega
        have hd1 : c.drop c.length = [] := List.drop_length c
        have hd2 : (xorLastByte d c).drop c.length = [] :=
          List.drop_of_length_le (by rw [xorLastByte_length])
        rw [hm, hd1, hd2, loop_nil, loop_nil]
        simp only [List.append_nil]
        exact ⟨_, _, List.zipWith Byte.xor c (keyBlock aes x), rfl, by simp [hK]; omega,
          by rw [zipWith_xorLastByte d c _ (by omega)]⟩

/-! ## `encrypt` and `decrypt` -/

theorem aesNewCipher_key : aesNewCipher encryptionKey = .ok { key := encryptionKey } := by
  rfl

theorem makeBytes_length (n : Nat) : (makeBytes n).length = n := by simp [makeBytes]

theorem newCFB_eq (block : Block) (iv : List Byte) (dec : Bool) (h : iv.length = 16) :
    newCFB block iv dec =
      some { b := block, next := iv, out := makeBytes 16, outUsed := 16, decrypt := dec } := by
  have h1 : goCopy (makeBytes 16) iv = iv := by
    rw [goCopy_of_le _ _ (by simp [makeBytes_length, h]), makeBytes_length,
      List.take_of_length_le (by omega)]
  simp [newCFB, aesBlockSize, h, h1]

theorem ioReadFullRand_ok (buf : List Byte) (w : World) (h : buf.length ≤ w.rand.length) :
    ioReadFullRand buf w =
      (.ok (w.rand.take buf.length),
        { files := w.files, rand := w.rand.drop buf.length,
          trace := w.trace ++ [.randRead buf.length] }) := by
  have h1 : goCopy buf (w.rand.take buf.length) = w.rand.take buf.length := by
    rw [goCopy_of_le _ _ (by simp; omega), List.take_take, Nat.min_self]
  simp [ioReadFullRand, h, h1, World.log]

theorem ioReadFullRand_error (buf : List Byte) (w : World) (h : w.rand.length < buf.length) :
    ∃ e w1, ioReadFullRand buf w = (.error e, w1) := by
  have h1 : ¬ buf.length ≤ w.rand.length := by omega
  simp only [ioReadFullRand, h1, if_false]
  split <;> exact ⟨_, _, rfl⟩

/-- What `encrypt` does when the random source delivers a whole IV. -/
theorem encrypt_of_rand (env : Env) (data : List Byte) (w : World) (h : 16 ≤ w.rand.length) :
    ∃ body, cipher env (w.rand.take 16) data = some body ∧
      body.length = data.length ∧
      encrypt env data w = some (.ok (w.rand.take 16 ++ body),
        { files := w.files, rand := w.rand.drop 16, trace := w.trace ++ [.randRead 16] }) ∧
      decipher env (w.rand.take 16) body = some data := by
  have hiv : (w.rand.take 16).length = 16 := by simp; omega
  have hbuf : ((makeBytes (aesBlockSize + data.length)).take aesBlockSize).length = 16 := by
    simp [makeBytes_length, aesBlockSize]
  have hdst : (makeBytes (aesBlockSize + data.length)).drop aesBlockSize =
      makeBytes data.length := by
    simp [makeBytes, aesBlockSize]
  obtain ⟨xf, c, hc, hlen, hdec⟩ := loop_enc_dec env.aes data.length
    { b := { key := encryptionKey }, next := w.rand.take 16, out := makeBytes 16, outUsed := 16,
      decrypt := false } (makeBytes data.length) data rfl
    ⟨rfl, makeBytes_length 16, hiv⟩ (makeBytes_length _) (le_refl _)
  obtain ⟨yf, hy⟩ := hdec c.length (le_refl _)
  refine ⟨c, ?_, hlen, ?_, ?_⟩
  · simp [cipher, aesNewCipher_key, newCFB_eq _ _ _ hiv, cfb.XORKeyStream, makeBytes_length, hc]
  · simp [encrypt, aesNewCipher_key, ioReadFullRand_ok _ w (by rw [hbuf]; exact h), hbuf,
      newCFB_eq _ _ _ hiv, hdst, cfb.XORKeyStream, makeBytes_length, hc]
  · simp [decipher, aesNewCipher_key, newCFB_eq _ _ _ hiv, cfb.XORKeyStream, hy]

/-- What `decrypt` does on an input of a block or more. -/
theorem decrypt_of_block (env : Env) (data : List Byte) (h : 16 ≤ data.length) :
    ∃ p, decipher env (data.take 16) (data.drop 16) = some p ∧
      p.length = data.length - 16 ∧ decrypt env data = some (.ok p) := by
  have hiv : (data.take 16).length = 16 := by simp; omega
  obtain ⟨xf, p, hp, hlen⟩ := loop_dec_total env.aes (data.length - 16)
    { b := { key := encryptionKey }, next := data.take 16, out := makeBytes 16, outUsed := 16,
      decrypt := true } (data.drop 16) rfl ⟨rfl, makeBytes_length 16, hiv⟩ (by simp)
  have hnot : ¬ data.length < 16 := by omega
  refine ⟨p, ?_, by simpa using hlen, ?_⟩
  · simp [decipher, aesNewCipher_key, newCFB_eq _ _ _ hiv, cfb.XORKeyStream, hp]
  · simp [decrypt, aesNewCipher_key, hnot, aesBlockSize, newCFB_eq _ _ _ hiv,
      cfb.XORKeyStream, hp]

theorem decrypt_eq_decipher (env : Env) (data : List Byte) (h : 16 ≤ data.length) :
    decrypt env data = (decipher env (data.take 16) (data.drop 16)).map Except.ok := by
  obtain ⟨p, h1, _, h2⟩ := decrypt_of_block env data h
  rw [h1, h2]; rfl

theorem encrypt_no_rand (env : Env) (data : List Byte) (w : World) (h : w.rand.length < 16) :
    ∃ e w1, encrypt env data w = some (.error e, w1) := by
  have hbuf : ((makeBytes (aesBlockSize + data.length)).take aesBlockSize).length = 16 := by
    simp [makeBytes_length, aesBlockSize]
  obtain ⟨e, w1, he⟩ := ioReadFullRand_error
    ((makeBytes (aesBlockSize + data.length)).take aesBlockSize) w (by rw [hbuf]; exact h)
  refine ⟨.wrap "failed to generate IV" e, w1, ?_⟩
  simp only [encrypt, aesNewCipher_key, he]

/-- C1. For every byte sequence `x`, the empty one included, and every 16-byte IV that the
random source delivers to `encrypt`, `encrypt x` succeeds with that IV in front, and
`decrypt` of its output succeeds and gives back exactly `x`, under the fixed 32-byte key. -/
theorem cipher_identity (env : Env) (x iv more : List Byte) (w : World)
    (hiv : iv.length = 16) (hrand : w.rand = iv ++ more) :
    encryptionKey.length = 32 ∧
    ∃ body w1, encrypt env x w = some (.ok (iv ++ body), w1) ∧
      decrypt env (iv ++ body) = some (.ok x) := by
  have h16 : 16 ≤ w.rand.length := by rw [hrand]; simp [hiv]
  have htake : w.rand.take 16 = iv := by
    rw [hrand, List.take_append_of_le_length (by omega), List.take_of_length_le (by omega)]
  obtain ⟨body, _, _, henc, hdec⟩ := encrypt_of_rand env x w h16
  rw [htake] at henc hdec
  refine ⟨rfl, body, _, henc, ?_⟩
  have hlen : 16 ≤ (iv ++ body).length := by simp [hiv]
  rw [decrypt_eq_decipher env _ hlen, List.take_append_of_le_length (by omega),
    List.take_of_length_le (by omega), List.drop_append_of_le_length (by omega),
    List.drop_of_length_le (by omega), List.nil_append, hdec]
  rfl

theorem cipher_identity_witness :
    demoIV.length = 16 ∧ demoWorld.rand = demoIV ++ [] ∧
    ∃ body w1, encrypt demoEnv [] demoWorld = some (.ok (demoIV ++ body), w1) ∧
      decrypt demoEnv (demoIV ++ body) = some (.ok []) :=
  ⟨by decide, by decide, (cipher_identity demoEnv [] demoIV [] demoWorld (by decide)
    (by decide)).2⟩

/-- C3. The function `decrypt` returns an error exactly when its input is shorter than 16 bytes.
Every input of fewer than 16 bytes is rejected as too short; every input of 16 bytes or
more, whatever it holds, is accepted and gives a plaintext of `len(input) - 16` bytes, the
CFB decryption of the bytes after the first 16 with the first 16 as IV. -/
theorem decrypt_error_iff_short (env : Env) (data : List Byte) :
    ((∃ e, decrypt env data = some (.error e)) ↔ data.length < 16) ∧
    (data.length < 16 → decrypt env data = some (.error (.msg "ciphertext too short"))) ∧
    (16 ≤ data.length → ∃ p, decrypt env data = some (.ok p) ∧
      p.length = data.length - 16 ∧
      decipher env (data.take 16) (data.drop 16) = some p) := by
  have hshort : data.length < 16 →
      decrypt env data = some (.error (.msg "ciphertext too short")) := by
    intro h
    simp [decrypt, aesNewCipher_key, aesBlockSize, h]
  have hlong : 16 ≤ data.length → ∃ p, decrypt env data = some (.ok p) ∧
      p.length = data.length - 16 ∧
      decipher env (data.take 16) (data.drop 16) = some p := by
    intro h
    obtain ⟨p, h1, h2, h3⟩ := decrypt_of_block env data h
    exact ⟨p, h3, h2, h1⟩
  refine ⟨⟨?_, fun h => ⟨_, hshort h⟩⟩, hshort, hlong⟩
  rintro ⟨e, he⟩
  by_contra hn
  obtain ⟨p, hp, _⟩ := hlong (by omega)
  rw [hp] at he
  cases he

theorem decrypt_error_iff_short_witness :
    decrypt demoEnv [1, 2, 3] = some (.error (.msg "ciphertext too short")) ∧
    ∃ p, decrypt demoEnv (demoIV ++ [1, 2, 3]) = some (.ok p) ∧
      p.length = (demoIV ++ [1, 2, 3]).length - 16 ∧
      decipher demoEnv ((demoIV ++ [1, 2, 3]).take 16) ((demoIV ++ [1, 2, 3]).drop 16) =
        some p :=
  ⟨(decrypt_error_iff_short demoEnv [1, 2, 3]).2.1 (by decide),
    (decrypt_error_iff_short demoEnv (demoIV ++ [1, 2, 3])).2.2 (by decide)⟩

/-- C4. For every plaintext `p`, a successful `encrypt p` returns one byte sequence of
length `16 + len(p)`: its first 16 bytes are the IV read from the random source in that
call, and the rest is the CFB ciphertext of `p` under that IV, as long as `p`. -/
theorem encrypt_layout (env : Env) (p out : List Byte) (w w1 : World)
    (h : encrypt env p w = some (.ok out, w1)) :
    out.length = 16 + p.length ∧
    16 ≤ w.rand.length ∧ out.take 16 = w.rand.take 16 ∧ w1.rand = w.rand.drop 16 ∧
    w1.trace = w.trace ++ [.randRead 16] ∧
    cipher env (out.take 16) p = some (out.drop 16) ∧
    (out.drop 16).length = p.length := by
  by_cases h16 : 16 ≤ w.rand.length
  · have hiv : (w.rand.take 16).length = 16 := by simp; omega
    obtain ⟨body, hc, hlen, henc, _⟩ := encrypt_of_rand env p w h16
    rw [henc] at h
    simp only [Option.some.injEq, Prod.mk.injEq, Except.ok.injEq] at h
    obtain ⟨hout, hw⟩ := h
    subst hout hw
    have ht : (w.rand.take 16 ++ body).take 16 = w.rand.take 16 := by
      rw [List.take_append_of_le_length (by omega), List.take_of_length_le (by omega)]
    have hd : (w.rand.take 16 ++ body).drop 16 = body := by
      rw [List.drop_append_of_le_length (by omega), List.drop_of_length_le (by omega),
        List.nil_append]
    refine ⟨by simp [hlen]; omega, h16, ht, rfl, rfl, by rw [ht, hd, hc], by rw [hd, hlen]⟩
  · obtain ⟨e, w2, he⟩ := encrypt_no_rand env p w (by omega)
    rw [he] at h
    simp at h

theorem encrypt_layout_witness :
    encrypt demoEnv [7, 7] demoWorld =
      some (.ok (demoIV ++ [60, 37]), { files := [], rand := [], trace := [.randRead 16] }) ∧
    (demoIV ++ [60, 37]).length = 16 + [(7 : Byte), 7].length ∧
    16 ≤ demoWorld.rand.length ∧ (demoIV ++ [60, 37]).take 16 = demoWorld.rand.take 16 ∧
    ({ files := [], rand := [], trace := [.randRead 16] } : World).rand =
      demoWorld.rand.drop 16 ∧
    ({ files := [], rand := [], trace := [.randRead 16] } : World).trace =
      demoWorld.trace ++ [.randRead 16] ∧
    cipher demoEnv ((demoIV ++ [60, 37]).take 16) [7, 7] = some ((demoIV ++ [60, 37]).drop 16) ∧
    ((demoIV ++ [60, 37]).drop 16).length = [(7 : Byte), 7].length :=
  ⟨by decide, encrypt_layout demoEnv [7, 7] (demoIV ++ [60, 37]) demoWorld
    { files := [], rand := [], trace := [.randRead 16] } (by decide)⟩

/-- C10. Tampering is malleable: for every input of at least 17 bytes and every byte value
`d`, `decrypt` of the input with `d` XOR-ed into its last byte succeeds and gives the
plaintext of the untampered input with `d` XOR-ed into its last byte, all other
plaintext bytes being the same. -/
theorem decrypt_malleable (env : Env) (blob : List Byte) (d : Byte) (h : 17 ≤ blob.length) :
    ∃ p, decrypt env blob = some (.ok p) ∧ p.length = blob.length - 16 ∧
      decrypt env (xorLastByte d blob) = some (.ok (xorLastByte d p)) := by
  have hiv : (blob.take 16).length = 16 := by simp; omega
  obtain ⟨xf, xg, p, hp, hlen, hq⟩ := loop_dec_xorLast env.aes d (blob.length - 16)
    { b := { key := encryptionKey }, next := blob.take 16, out := makeBytes 16, outUsed := 16,
      decrypt := true } (blob.drop 16) rfl ⟨rfl, makeBytes_length 16, hiv⟩ (by simp)
  have hsplit := xorLastByte_take_drop d blob 16 (by omega)
  have htake : (xorLastByte d blob).take 16 = blob.take 16 := by
    rw [hsplit, List.take_append_of_le_length (by omega), List.take_of_length_le (by omega)]
  have hdrop : (xorLastByte d blob).drop 16 = xorLastByte d (blob.drop 16) := by
    rw [hsplit, List.drop_append_of_le_length (by omega), List.drop_of_length_le (by omega),
      List.nil_append]
  have hnot : ¬ blob.length < 16 := by omega
  refine ⟨p, ?_, by simpa using hlen, ?_⟩
  · simp [decrypt, aesNewCipher_key, hnot, aesBlockSize, newCFB_eq _ _ _ hiv,
      cfb.XORKeyStream, hp]
  · have hnot2 : ¬ (xorLastByte d blob).length < 16 := by rw [xorLastByte_length]; omega
    have hiv2 : ((xorLastByte d blob).take 16).length = 16 := by rw [htake]; exact hiv
    simp only [decrypt, aesNewCipher_key, hnot2, aesBlockSize, if_false,
      newCFB_eq _ _ _ hiv2, cfb.XORKeyStream, lt_irrefl]
    rw [htake, hdrop, xorLastByte_length]
    simp only [List.length_drop] 
    rw [hq]

theorem decrypt_malleable_witness :
    17 ≤ (demoIV ++ [1, 2, 3]).length ∧
    ∃ p, decrypt demoEnv (demoIV ++ [1, 2, 3]) = some (.ok p) ∧
      p.length = (demoIV ++ [1, 2, 3]).length - 16 ∧
      decrypt demoEnv (xorLastByte 255 (demoIV ++ [1, 2, 3])) =
        some (.ok (xorLastByte 255 p)) :=
  ⟨by decide, decrypt_malleable demoEnv (demoIV ++ [1, 2, 3]) 255 (by decide)⟩

/-! ## Remote detection and the missing attachment -/

theorem stringsHasPrefix_iff (s p : String) :
    stringsHasPrefix s p = true ↔ ∃ t : String, s = p ++ t := by
  simp only [stringsHasPrefix, List.isPrefixOf_iff_prefix]
  constructor
  · rintro ⟨t, ht⟩
    exact ⟨⟨t⟩, String.ext (by simp [String.data_append, ht])⟩
  · rintro ⟨t, rfl⟩
    exact ⟨t.data, by simp [String.data_append]⟩

/-- C5, amended. For every source string `s`, `isRemoteRepo s` is true exactly when `s`
begins with `http://`, with `https://` or with `git@`; every other string is treated as a
local path. -/
theorem isRemoteRepo_iff (s : String) :
    isRemoteRepo s = true ↔
      (∃ t : String, s = "http://" ++ t) ∨ (∃ t : String, s = "https://" ++ t) ∨
        (∃ t : String, s = "git@" ++ t) := by
  simp only [isRemoteRepo, Bool.or_eq_true, stringsHasPrefix_iff, or_assoc]

/-- C5 as stated fails: an SSH-style source whose user name is not `git` matches the
`user@host:` form and yet is not taken for a remote repository. -/
theorem isRemoteRepo_other_user_local :
    ¬ (isRemoteRepo "alice@example.com:repo.git" = true ↔
        ((∃ t : String, "alice@example.com:repo.git" = "http://" ++ t) ∨
         (∃ t : String, "alice@example.com:repo.git" = "https://" ++ t) ∨
         SshStyleUserAtHost "alice@example.com:repo.git")) := by
  intro h
  have hssh : SshStyleUserAtHost "alice@example.com:repo.git" :=
    ⟨"alice", "example.com", "repo.git", by decide, by decide, by decide⟩
  have hremote := h.mpr (Or.inr (Or.inr hssh))
  revert hremote
  decide

/-- C8. For every container that opens and lists zero attachments,
`extractRepositoryFromPDF` fails with the no-attachment error, wrapped once, and leaves no
partial output: the paths are as they were, and the only external calls made are the
opening of the file and the listing of its attachments, so no temporary file has been
created and no verify or clone step has run. -/
theorem extract_no_attachment (env : Env) (inputFile outputDir : String) (w : World)
    (hopen : env.osOpen inputFile = .ok ())
    (hnone : env.pdfAttachments inputFile = .ok []) :
    ∃ w1, extractRepositoryFromPDF env inputFile outputDir w =
        some (.error (.wrap "failed to extract attachment from PDF"
          (.msg "no attachments found in PDF")), w1) ∧
      w1.files = w.files ∧ w1.rand = w.rand ∧
      w1.trace = w.trace ++ [.osOpen inputFile, .pdfAttachments inputFile] ∧
      Call.createTemp ∉ w1.trace.drop w.trace.length ∧
      (∀ b, Call.gitBundleVerify b ∉ w1.trace.drop w.trace.length) ∧
      (∀ b, Call.gitClone b outputDir ∉ w1.trace.drop w.trace.length) := by
  refine ⟨(w.log (.osOpen inputFile)).log (.pdfAttachments inputFile),
    ?_, rfl, rfl, ?_, ?_, ?_, ?_⟩
  · simp [extractRepositoryFromPDF, extractAttachmentFromPDF, hopen, hnone]
  · simp [World.log]
  · simp [World.log]
  · simp [World.log]
  · simp [World.log]

theorem extract_no_attachment_witness :
    demoEnv.osOpen "in.pdf" = .ok () ∧ demoEnv.pdfAttachments "in.pdf" = .ok [] ∧
    ∃ w1, extractRepositoryFromPDF demoEnv "in.pdf" "out" demoWorld =
        some (.error (.wrap "failed to extract attachment from PDF"
          (.msg "no attachments found in PDF")), w1) ∧
      w1.files = demoWorld.files ∧ w1.rand = demoWorld.rand ∧
      w1.trace = demoWorld.trace ++ [.osOpen "in.pdf", .pdfAttachments "in.pdf"] ∧
      Call.createTemp ∉ w1.trace.drop demoWorld.trace.length ∧
      (∀ b, Call.gitBundleVerify b ∉ w1.trace.drop demoWorld.trace.length) ∧
      (∀ b, Call.gitClone b "out" ∉ w1.trace.drop demoWorld.trace.length) :=
  ⟨rfl, rfl, extract_no_attachment demoEnv "in.pdf" "out" demoWorld rfl rfl⟩

/-! ## Cleanup after a failed run -/

/-- C9, the failing run. A local repository at `/repo`, `git bundle create` succeeds,
`os.Rename` into the working directory fails: `embedRepositoryIntoPDF` fails, and the
archive file the run created at its first location, `/repo/repo.bundle`, is still
there. -/
theorem embed_rename_failure_leaves_bundle :
    isRemoteRepo "/repo" = false ∧
    "/repo/repo.bundle" ∉ demoWorld.files ∧
    ∃ w1, embedRepositoryIntoPDF crossDeviceEnv "/repo" "out.pdf" demoWorld =
        some (.error (.wrap "failed to create Git bundle"
          (.wrap "failed to move Git bundle file" (.msg "invalid cross-device link"))), w1) ∧
      "/repo/repo.bundle" ∈ w1.files :=
  ⟨by decide, by decide,
    ⟨{ files := ["/repo/repo.bundle"], rand := demoIV,
       trace := [.gitBundleCreate "/repo" "/repo/repo.bundle",
         .rename "/repo/repo.bundle" "repo.bundle"] }, by decide, by decide⟩⟩

/-- The sibling path: with a remote repository the same failure of `os.Rename` leaves
nothing behind, because the deferred `os.RemoveAll(tempDir)` takes the archive file with
the temporary clone. -/
theorem embed_rename_failure_remote_clean :
    ∃ w1, embedRepositoryIntoPDF crossDeviceEnv "https://example.com/r.git" "out.pdf"
        demoWorld =
        some (.error (.wrap "failed to create Git bundle"
          (.wrap "failed to move Git bundle file" (.msg "invalid cross-device link"))), w1) ∧
      w1.files = [] :=
  ⟨{ files := [], rand := demoIV,
     trace := [.mkdirTemp, .gitCloneBare "https://example.com/r.git" "/tmp/temp-repo-1",
       .gitBundleCreate "/tmp/temp-repo-1" "/tmp/temp-repo-1/repo.bundle",
       .rename "/tmp/temp-repo-1/repo.bundle" "repo.bundle",
       .removeAll "/tmp/temp-repo-1"] }, by decide, rfl⟩

/-! ## The round trip and the order of the stages -/

theorem decrypt_append (env : Env) (iv body A : List Byte) (hiv : iv.length = 16)
    (h : decipher env iv body = some A) : decrypt env (iv ++ body) = some (.ok A) := by
  have hlen : 16 ≤ (iv ++ body).length := by simp [hiv]
  rw [decrypt_eq_decipher env _ hlen, List.take_append_of_le_length (by omega),
    List.take_of_length_le (by omega), List.drop_append_of_le_length (by omega),
    List.drop_of_length_le (by omega), List.nil_append, h]
  rfl

/-- C2. For every archive `A` that a successful run of `embedRepositoryIntoPDF` reads, the
bytes handed to the container are `compress(iv ++ cipher(A))`, where `iv` is the 16 bytes
read from the random source and `cipher(A)` the CFB ciphertext of `A` under it; and, the
zlib reader undoing the zlib writer, the decompress and decrypt steps of
`extractRepositoryFromPDF` on those bytes give back exactly `A`, which is what the restore
step is run on. -/
theorem embed_extract_roundtrip (env : Env) (A : List Byte)
    (repoPath outputFile bundleFile : String) (w w1 w2 : World)
    (hz : ∀ p c, env.zlibWrite p = .ok c → env.zlibNewReader c = .ok (.ok p))
    (hb : createGitBundle env repoPath w = (.ok bundleFile, w1))
    (hr : env.osReadFile bundleFile = .ok A)
    (hok : embedRepositoryIntoPDF env repoPath outputFile w = some (.ok (), w2)) :
    ∃ iv body attachment,
      iv.length = 16 ∧ iv = w1.rand.take 16 ∧
      cipher env iv A = some body ∧ body.length = A.length ∧
      env.zlibWrite (iv ++ body) = .ok attachment ∧
      w2.trace = w1.trace ++ [.readFile bundleFile, .randRead 16,
        .pdfOutputFileAndClose outputFile attachment, .remove bundleFile] ∧
      decompress env attachment = .ok (iv ++ body) ∧
      decrypt env (iv ++ body) = some (.ok A) ∧
      ∀ (inputFile outputDir tempFile : String) (w3 w4 : World),
        extractAttachmentFromPDF env inputFile w3 = (.ok attachment, w4) →
        env.osCreateTemp = .ok tempFile →
        extractRepositoryFromPDF env inputFile outputDir w3 =
          some ((extractRepositoryFromPDF.restore env tempFile A outputDir
              ((w4.log .createTemp).addFile tempFile)).1,
            deferRemove tempFile (extractRepositoryFromPDF.restore env tempFile A outputDir
              ((w4.log .createTemp).addFile tempFile)).2) := by
  by_cases h16 : 16 ≤ w1.rand.length
  · have hiv : (w1.rand.take 16).length = 16 := by simp; omega
    obtain ⟨body, hc, hlen, henc, hdec⟩ :=
      encrypt_of_rand env A (w1.log (.readFile bundleFile)) h16
    simp only [World.log] at henc hdec hc
    simp only [embedRepositoryIntoPDF, hb, hr, World.log, henc] at hok
    cases hzw : env.zlibWrite (w1.rand.take 16 ++ body) with
    | error e => simp [hzw] at hok
    | ok attachment =>
      simp only [hzw, createPDFWithAttachment, World.log] at hok
      cases hpdf : env.pdfOutputFileAndClose outputFile attachment with
      | error e => simp [hpdf] at hok
      | ok u =>
        simp only [hpdf, deferRemove, World.log, World.addFile, World.removeFile,
          Option.some.injEq, Prod.mk.injEq, true_and] at hok
        have hD : decompress env attachment = .ok (w1.rand.take 16 ++ body) := by
          simp [decompress, hz _ _ hzw]
        have hE := decrypt_append env _ _ _ hiv hdec
        refine ⟨w1.rand.take 16, body, attachment, hiv, rfl, hc, hlen, hzw, ?_, hD, hE, ?_⟩
        · rw [← hok]; simp
        · intro inputFile outputDir tempFile w3 w4 hx ht
          simp only [extractRepositoryFromPDF, hx, hD, hE, ht]
  · obtain ⟨e, w3, he⟩ := encrypt_no_rand env A (w1.log (.readFile bundleFile))
      (by simp only [World.log]; omega)
    simp [embedRepositoryIntoPDF, hb, hr, he] at hok

/-- A run of C2: the archive `PACK` is embedded with the IV `demoIV`, and extraction from a
container holding the resulting attachment writes `PACK` to the temporary bundle file. -/
theorem embed_extract_roundtrip_witness :
    (∀ p c, archivedEnv.zlibWrite p = .ok c → archivedEnv.zlibNewReader c = .ok (.ok p)) ∧
    createGitBundle archivedEnv "/repo" demoWorld =
      (.ok "repo.bundle",
        { files := ["repo.bundle"], rand := demoIV,
          trace := [.gitBundleCreate "/repo" "/repo/repo.bundle",
            .rename "/repo/repo.bundle" "repo.bundle"] }) ∧
    archivedEnv.osReadFile "repo.bundle" = .ok [80, 65, 67, 75] ∧
    embedRepositoryIntoPDF archivedEnv "/repo" "out.pdf" demoWorld =
      some (.ok (),
        { files := ["out.pdf"], rand := [],
          trace := [.gitBundleCreate "/repo" "/repo/repo.bundle",
            .rename "/repo/repo.bundle" "repo.bundle", .readFile "repo.bundle", .randRead 16,
            .pdfOutputFileAndClose "out.pdf" demoAttachment, .remove "repo.bundle"] }) ∧
    (∃ body,
      cipher archivedEnv demoIV [80, 65, 67, 75] = some body ∧
      archivedEnv.zlibWrite (demoIV ++ body) = .ok demoAttachment ∧
      decompress archivedEnv demoAttachment = .ok (demoIV ++ body) ∧
      decrypt archivedEnv (demoIV ++ body) = some (.ok [80, 65, 67, 75])) ∧
    extractRepositoryFromPDF archivedEnv "out.pdf" "clone"
        { files := ["out.pdf"], rand := [], trace := [] } =
      some (.ok (),
        { files := ["clone", "out.pdf"], rand := [],
          trace := [.osOpen "out.pdf", .pdfAttachments "out.pdf",
            .pdfExtractAttachmentsRaw "out.pdf" ["report.csv"], .createTemp,
            .tempWrite "/tmp/temp-bundle-1.bundle" [80, 65, 67, 75],
            .tempClose "/tmp/temp-bundle-1.bundle",
            .gitBundleVerify "/tmp/temp-bundle-1.bundle",
            .gitClone "/tmp/temp-bundle-1.bundle" "clone",
            .remove "/tmp/temp-bundle-1.bundle"] }) := by
  have hz : ∀ p c, archivedEnv.zlibWrite p = .ok c →
      archivedEnv.zlibNewReader c = .ok (.ok p) := by
    intro p c h
    simp only [archivedEnv, demoEnv, Except.ok.injEq] at h
    subst h
    rfl
  have hembed : embedRepositoryIntoPDF archivedEnv "/repo" "out.pdf" demoWorld =
      some (.ok (),
        { files := ["out.pdf"], rand := [],
          trace := [.gitBundleCreate "/repo" "/repo/repo.bundle",
            .rename "/repo/repo.bundle" "repo.bundle", .readFile "repo.bundle", .randRead 16,
            .pdfOutputFileAndClose "out.pdf" demoAttachment, .remove "repo.bundle"] }) := by
    decide
  obtain ⟨iv, body, attachment, _, h2, h3, _, h5, h6, h7, h8, h9⟩ :=
    embed_extract_roundtrip archivedEnv [80, 65, 67, 75] "/repo" "out.pdf" "repo.bundle"
      demoWorld
      { files := ["repo.bundle"], rand := demoIV,
        trace := [.gitBundleCreate "/repo" "/repo/repo.bundle",
          .rename "/repo/repo.bundle" "repo.bundle"] }
      _ hz (by decide) rfl hembed
  have hiv : iv = demoIV := by rw [h2]; decide
  subst hiv
  have hatt : attachment = demoAttachment := by
    simp only [List.append_assoc, List.singleton_append, List.cons_append, List.nil_append,
      List.cons.injEq, List.append_cancel_left_eq, and_true, true_and] at h6
    injection h6 with _ h
    exact h.symm
  subst hatt
  refine ⟨hz, by decide, rfl, hembed, ⟨body, h3, h5, h7, h8⟩, ?_⟩
  rw [h9 "out.pdf" "clone" "/tmp/temp-bundle-1.bundle"
    { files := ["out.pdf"], rand := [], trace := [] }
    { files := ["out.pdf"], rand := [],
      trace := [.osOpen "out.pdf", .pdfAttachments "out.pdf",
        .pdfExtractAttachmentsRaw "out.pdf" ["report.csv"]] }
    (by decide) rfl]
  decide

/-- C7. Both pipelines run their stages in a fixed order, each on the output of the one
before, and the first stage that fails ends the run: the error returned wraps the error
of that stage in a message that names it, and the world is the one that stage left, but
for the deferred removal of a temporary file, so that no later stage has run.
For `embedRepositoryIntoPDF` the stages are: create the archive (and read it), encrypt,
compress, write the container.  For `extractRepositoryFromPDF`: read the container,
decompress, decrypt, restore the archive (temporary file, write, close, verify, clone). -/
theorem pipeline_stages (env : Env) (w : World) :
    -- embed, stage 1: create the archive
    (∀ repoPath outputFile e w1,
      createGitBundle env repoPath w = (.error e, w1) →
      embedRepositoryIntoPDF env repoPath outputFile w =
        some (.error (.wrap "failed to create Git bundle" e), w1)) ∧
    (∀ repoPath outputFile f w1 e,
      createGitBundle env repoPath w = (.ok f, w1) →
      env.osReadFile f = .error e →
      embedRepositoryIntoPDF env repoPath outputFile w =
        some (.error (.wrap "failed to read Git bundle" e),
          deferRemove f (w1.log (.readFile f)))) ∧
    -- embed, stage 2: encrypt the archive
    (∀ repoPath outputFile f w1 A e w2,
      createGitBundle env repoPath w = (.ok f, w1) →
      env.osReadFile f = .ok A →
      encrypt env A (w1.log (.readFile f)) = some (.error e, w2) →
      embedRepositoryIntoPDF env repoPath outputFile w =
        some (.error (.wrap "failed to encrypt data" e), deferRemove f w2)) ∧
    -- embed, stage 3: compress the encrypted archive
    (∀ repoPath outputFile f w1 A ct w2 e,
      createGitBundle env repoPath w = (.ok f, w1) →
      env.osReadFile f = .ok A →
      encrypt env A (w1.log (.readFile f)) = some (.ok ct, w2) →
      env.zlibWrite ct = .error e →
      embedRepositoryIntoPDF env repoPath outputFile w =
        some (.error (.wrap "failed to compress encrypted data" e), deferRemove f w2)) ∧
    -- embed, stage 4: write the container with the compressed bytes
    (∀ repoPath outputFile f w1 A ct w2 z e w3,
      createGitBundle env repoPath w = (.ok f, w1) →
      env.osReadFile f = .ok A →
      encrypt env A (w1.log (.readFile f)) = some (.ok ct, w2) →
      env.zlibWrite ct = .ok z →
      createPDFWithAttachment env outputFile z w2 = (.error e, w3) →
      embedRepositoryIntoPDF env repoPath outputFile w =
        some (.error (.wrap "failed to create PDF with embedded data" e), deferRemove f w3)) ∧
    (∀ repoPath outputFile f w1 A ct w2 z w3,
      createGitBundle env repoPath w = (.ok f, w1) →
      env.osReadFile f = .ok A →
      encrypt env A (w1.log (.readFile f)) = some (.ok ct, w2) →
      env.zlibWrite ct = .ok z →
      createPDFWithAttachment env outputFile z w2 = (.ok (), w3) →
      embedRepositoryIntoPDF env repoPath outputFile w = some (.ok (), deferRemove f w3)) ∧
    -- extract, stage 1: read the container
    (∀ inputFile outputDir e w1,
      extractAttachmentFromPDF env inputFile w = (.error e, w1) →
      extractRepositoryFromPDF env inputFile outputDir w =
        some (.error (.wrap "failed to extract attachment from PDF" e), w1)) ∧
    -- extract, stage 2: decompress the attachment
    (∀ inputFile outputDir att w1 e,
      extractAttachmentFromPDF env inputFile w = (.ok att, w1) →
      decompress env att = .error e →
      extractRepositoryFromPDF env inputFile outputDir w =
        some (.error (.wrap "failed to decompress data" e), w1)) ∧
    -- extract, stage 3: decrypt the decompressed bytes
    (∀ inputFile outputDir att w1 blob e,
      extractAttachmentFromPDF env inputFile w = (.ok att, w1) →
      decompress env att = .ok blob →
      decrypt env blob = some (.error e) →
      extractRepositoryFromPDF env inputFile outputDir w =
        some (.error (.wrap "failed to decrypt data" e), w1)) ∧
    -- extract, stage 4: restore the archive from the decrypted bytes
    (∀ inputFile outputDir att w1 blob A e,
      extractAttachmentFromPDF env inputFile w = (.ok att, w1) →
      decompress env att = .ok blob →
      decrypt env blob = some (.ok A) →
      env.osCreateTemp = .error e →
      extractRepositoryFromPDF env inputFile outputDir w =
        some (.error (.wrap "failed to create temporary file" e), w1.log .createTemp)) ∧
    (∀ inputFile outputDir att w1 blob A t r w2,
      extractAttachmentFromPDF env inputFile w = (.ok att, w1) →
      decompress env att = .ok blob →
      decrypt env blob = some (.ok A) →
      env.osCreateTemp = .ok t →
      extractRepositoryFromPDF.restore env t A outputDir
        ((w1.log .createTemp).addFile t) = (r, w2) →
      extractRepositoryFromPDF env inputFile outputDir w = some (r, deferRemove t w2)) ∧
    -- the steps of the restore stage, in their order
    (∀ t A outputDir w0,
      (∀ e, env.tempWrite t A = .error e →
        extractRepositoryFromPDF.restore env t A outputDir w0 =
          (.error (.wrap "failed to write Git bundle to temp file" e),
            w0.log (.tempWrite t A))) ∧
      (∀ e, env.tempWrite t A = .ok () → env.tempClose t = .error e →
        extractRepositoryFromPDF.restore env t A outputDir w0 =
          (.error (.wrap "failed to close temp file" e),
            (w0.log (.tempWrite t A)).log (.tempClose t))) ∧
      (∀ e, env.tempWrite t A = .ok () → env.tempClose t = .ok () →
        env.gitBundleVerify t = .error e →
        extractRepositoryFromPDF.restore env t A outputDir w0 =
          (.error (.wrap "invalid Git bundle" e),
            ((w0.log (.tempWrite t A)).log (.tempClose t)).log (.gitBundleVerify t))) ∧
      (∀ e, env.tempWrite t A = .ok () → env.tempClose t = .ok () →
        env.gitBundleVerify t = .ok () → env.gitClone t outputDir = .error e →
        extractRepositoryFromPDF.restore env t A outputDir w0 =
          (.error (.wrap "failed to clone repository" e),
            (((w0.log (.tempWrite t A)).log (.tempClose t)).log (.gitBundleVerify t)).log
              (.gitClone t outputDir))) ∧
      (env.tempWrite t A = .ok () → env.tempClose t = .ok () →
        env.gitBundleVerify t = .ok () → env.gitClone t outputDir = .ok () →
        extractRepositoryFromPDF.restore env t A outputDir w0 =
          (.ok (),
            ((((w0.log (.tempWrite t A)).log (.tempClose t)).log (.gitBundleVerify t)).log
              (.gitClone t outputDir)).addFile outputDir))) := by
  refine ⟨?_, ?_, ?_, ?_, ?_, ?_, ?_, ?_, ?_, ?_, ?_, ?_⟩
  · intro repoPath outputFile e w1 h1
    simp only [embedRepositoryIntoPDF, h1]
  · intro repoPath outputFile f w1 e h1 h2
    simp only [embedRepositoryIntoPDF, h1, h2, deferRemove]
  · intro repoPath outputFile f w1 A e w2 h1 h2 h3
    simp only [embedRepositoryIntoPDF, h1, h2, h3, deferRemove]
  · intro repoPath outputFile f w1 A ct w2 e h1 h2 h3 h4
    simp only [embedRepositoryIntoPDF, h1, h2, h3, h4, deferRemove]
  · intro repoPath outputFile f w1 A ct w2 z e w3 h1 h2 h3 h4 h5
    simp only [embedRepositoryIntoPDF, h1, h2, h3, h4, h5, deferRemove]
  · intro repoPath outputFile f w1 A ct w2 z w3 h1 h2 h3 h4 h5
    simp only [embedRepositoryIntoPDF, h1, h2, h3, h4, h5, deferRemove]
  · intro inputFile outputDir e w1 h1
    simp only [extractRepositoryFromPDF, h1]
  · intro inputFile outputDir att w1 e h1 h2
    simp only [extractRepositoryFromPDF, h1, h2]
  · intro inputFile outputDir att w1 blob e h1 h2 h3
    simp only [extractRepositoryFromPDF, h1, h2, h3]
  · intro inputFile outputDir att w1 blob A e h1 h2 h3 h4
    simp only [extractRepositoryFromPDF, h1, h2, h3, h4]
  · intro inputFile outputDir att w1 blob A t r w2 h1 h2 h3 h4 h5
    simp only [extractRepositoryFromPDF, h1, h2, h3, h4, h5, deferRemove]
  · intro t A outputDir w0
    refine ⟨?_, ?_, ?_, ?_, ?_⟩
    · intro e h1
      simp only [extractRepositoryFromPDF.restore, h1]
    · intro e h1 h2
      simp only [extractRepositoryFromPDF.restore, h1, h2]
    · intro e h1 h2 h3
      simp only [extractRepositoryFromPDF.restore, h1, h2, h3]
    · intro e h1 h2 h3 h4
      simp only [extractRepositoryFromPDF.restore, h1, h2, h3, h4]
    · intro h1 h2 h3 h4
      simp only [extractRepositoryFromPDF.restore, h1, h2, h3, h4]

/-- Two runs of C7: with a random source that is dry `embedRepositoryIntoPDF` stops at the
encrypt stage, and on a container without attachments `extractRepositoryFromPDF` stops at
the first stage. -/
theorem pipeline_stages_witness :
    embedRepositoryIntoPDF demoEnv "/repo" "out.pdf" { files := [], rand := [], trace := [] } =
      some (.error (.wrap "failed to encrypt data" (.wrap "failed to generate IV" (.msg "EOF"))),
        deferRemove "repo.bundle"
          { files := ["repo.bundle"], rand := [],
            trace := [.gitBundleCreate "/repo" "/repo/repo.bundle",
              .rename "/repo/repo.bundle" "repo.bundle", .readFile "repo.bundle",
              .randRead 16] }) ∧
    extractRepositoryFromPDF demoEnv "in.pdf" "out" demoWorld =
      some (.error (.wrap "failed to extract attachment from PDF"
          (.msg "no attachments found in PDF")),
        { files := [], rand := demoIV,
          trace := [.osOpen "in.pdf", .pdfAttachments "in.pdf"] }) :=
  ⟨(pipeline_stages demoEnv { files := [], rand := [], trace := [] }).2.2.1
      "/repo" "out.pdf" "repo.bundle"
      { files := ["repo.bundle"], rand := [],
        trace := [.gitBundleCreate "/repo" "/repo/repo.bundle",
          .rename "/repo/repo.bundle" "repo.bundle"] }
      [80, 65, 67, 75] (.wrap "failed to generate IV" (.msg "EOF"))
      { files := ["repo.bundle"], rand := [],
        trace := [.gitBundleCreate "/repo" "/repo/repo.bundle",
          .rename "/repo/repo.bundle" "repo.bundle", .readFile "repo.bundle",
          .randRead 16] }
      (by decide) rfl (by decide),
    (pipeline_stages demoEnv demoWorld).2.2.2.2.2.2.1 "in.pdf" "out"
      (.msg "no attachments found in PDF")
      { files := [], rand := demoIV,
        trace := [.osOpen "in.pdf", .pdfAttachments "in.pdf"] }
      (by decide)⟩

end Polygoat
